import Mathlib

/-!
Verification development for the ledlight-controller repository.

Python floats are embedded as exact rationals, Python ints as integers,
optional values as `Option`, and code that can raise as `Option`-returning
functions.  `src/ledlight_controller/models.py` in the tree lacks the
`average_color`/`dominant_channel` fields and the `LampColorCommand` class
that every caller uses, so those records are modelled from the spec's data
model (section 3); everything else is translated from the source files.
-/

/-- RGB color with integer channels (models.py, `ColorRGB`). -/
structure ColorRGB where
  red : ℤ
  green : ℤ
  blue : ℤ
deriving DecidableEq

/-- Modelled from the spec: `Measurement` of section 3.  `models.py` in the
tree only declares `lux` and `normalized`, but `image_analysis.py`,
`pipeline.py` and `service.py` all construct or read the optional
`average_color` and `dominant_channel` fields, so the record is completed
from the spec's data model. -/
structure LightMeasurement where
  lux : Option ℚ
  normalized : Option ℚ
  average_color : Option ColorRGB
  dominant_channel : Option String
deriving DecidableEq

/-- Modelled from the spec: `LampCommand` of section 3 (`color`,
`brightness`, `saturation`); the class itself is absent from the tree's
`models.py` though `pipeline.py` and `light_client.py` construct and
consume it. -/
structure LampColorCommand where
  color : ColorRGB
  brightness : ℤ
  saturation : ℤ
deriving DecidableEq

/-- Tuning record of pipeline.py, `MapperConfig`, with its dataclass
defaults. -/
structure MapperConfig where
  warm_color : ColorRGB := ⟨255, 160, 64⟩
  cool_color : ColorRGB := ⟨255, 255, 235⟩
  min_brightness : ℚ := 40
  max_brightness : ℚ := 255
  dark_lux : ℚ := 0
  bright_lux : ℚ := 255
  use_camera_average : Bool := false
  min_saturation : ℚ := 0
  max_saturation : ℚ := 255
  dark_color : ColorRGB := ⟨20, 4, 3⟩
  dark_brightness : ℚ := 12

/-- pipeline.py `_clamp`: `max(min_value, min(max_value, value))`. -/
def clampVal (value min_value max_value : ℚ) : ℚ :=
  max min_value (min max_value value)

/-- pipeline.py `_blend`: `a + (b - a) * factor`. -/
def blendVal (a b factor : ℚ) : ℚ :=
  a + (b - a) * factor

/-- pipeline.py `_blend_color`: per-channel blend, returning the float
triple before any rounding. -/
def blendColor (color_a color_b : ColorRGB) (factor : ℚ) : ℚ × ℚ × ℚ :=
  (blendVal color_a.red color_b.red factor,
   blendVal color_a.green color_b.green factor,
   blendVal color_a.blue color_b.blue factor)

/-- Python's builtin `round` on an exact value: round half to even. -/
def pyround (q : ℚ) : ℤ :=
  if q - ⌊q⌋ < 1/2 then ⌊q⌋
  else if 1/2 < q - ⌊q⌋ then ⌊q⌋ + 1
  else if ⌊q⌋ % 2 = 0 then ⌊q⌋ else ⌊q⌋ + 1

theorem pyround_intCast (n : ℤ) : pyround (n : ℚ) = n := by
  simp [pyround, Int.floor_intCast]

theorem floor_le_pyround (q : ℚ) : ⌊q⌋ ≤ pyround q := by
  unfold pyround
  split_ifs <;> omega

theorem pyround_le_ceil (q : ℚ) : pyround q ≤ ⌈q⌉ := by
  have hfc : (⌊q⌋ : ℚ) ≤ q := Int.floor_le q
  unfold pyround
  split_ifs with h1 h2 h3
  · exact Int.floor_le_ceil q
  · have hlt : (⌊q⌋ : ℚ) < q := by linarith
    exact Int.add_one_le_iff.mpr (Int.lt_ceil.mpr hlt)
  · exact Int.floor_le_ceil q
  · have hlt : (⌊q⌋ : ℚ) < q := by linarith
    exact Int.add_one_le_iff.mpr (Int.lt_ceil.mpr hlt)

theorem pyround_sub_half_le (q : ℚ) : q - 1/2 ≤ (pyround q : ℚ) := by
  have hfc : (⌊q⌋ : ℚ) ≤ q := Int.floor_le q
  have hlt : q < (⌊q⌋ : ℚ) + 1 := Int.lt_floor_add_one q
  unfold pyround
  split_ifs <;> push_cast <;> linarith

theorem pyround_le_add_half (q : ℚ) : (pyround q : ℚ) ≤ q + 1/2 := by
  have hfc : (⌊q⌋ : ℚ) ≤ q := Int.floor_le q
  have hlt : q < (⌊q⌋ : ℚ) + 1 := Int.lt_floor_add_one q
  unfold pyround
  split_ifs <;> push_cast <;> linarith

theorem pyround_mono {a b : ℚ} (h : a ≤ b) : pyround a ≤ pyround b := by
  rcases lt_or_eq_of_le (Int.floor_le_floor h) with hf | hf
  · calc pyround a ≤ ⌈a⌉ := pyround_le_ceil a
      _ ≤ ⌊a⌋ + 1 := Int.ceil_le_floor_add_one a
      _ ≤ ⌊b⌋ := hf
      _ ≤ pyround b := floor_le_pyround b
  · -- same floor: compare the fractional parts
    unfold pyround
    rw [← hf]
    have hfrac : a - (⌊a⌋ : ℚ) ≤ b - (⌊a⌋ : ℚ) := by linarith
    split_ifs <;> first | omega | linarith

theorem pyround_mem_of_le (lo hi : ℤ) {q : ℚ} (h1 : (lo : ℚ) ≤ q) (h2 : q ≤ (hi : ℚ)) :
    lo ≤ pyround q ∧ pyround q ≤ hi := by
  constructor
  · exact le_trans (Int.le_floor.mpr h1) (floor_le_pyround q)
  · exact le_trans (pyround_le_ceil q) (Int.ceil_le.mpr h2)

/-- Data-model range constraint of spec section 3: each channel in [0,255]. -/
def ColorRGB.Valid (c : ColorRGB) : Prop :=
  0 ≤ c.red ∧ c.red ≤ 255 ∧ 0 ≤ c.green ∧ c.green ≤ 255 ∧ 0 ≤ c.blue ∧ c.blue ≤ 255

instance (c : ColorRGB) : Decidable c.Valid := by
  unfold ColorRGB.Valid; infer_instance

/-- A measurement over the spec's data model: the average color, when
present, is a well-formed `ColorRGB`. -/
def LightMeasurement.Valid (m : LightMeasurement) : Prop :=
  ∀ c, m.average_color = some c → c.Valid

instance (m : LightMeasurement) : Decidable m.Valid :=
  match h : m.average_color with
  | none => isTrue (by intro c hc; rw [h] at hc; cases hc)
  | some c =>
    if hv : c.Valid then
      isTrue (by intro c' hc'; rw [h] at hc'; cases hc'; exact hv)
    else isFalse (fun H => hv (H c h))

/-- MapperConfig over the spec's data model (section 3): channels in
[0,255], brightness and saturation bounds in [0,255] and ordered, and
`darkLux < brightLux`. -/
def MapperConfig.Valid (cfg : MapperConfig) : Prop :=
  cfg.warm_color.Valid ∧ cfg.cool_color.Valid ∧ cfg.dark_color.Valid ∧
  0 ≤ cfg.min_brightness ∧ cfg.min_brightness ≤ cfg.max_brightness ∧
  cfg.max_brightness ≤ 255 ∧
  0 ≤ cfg.dark_brightness ∧ cfg.dark_brightness ≤ 255 ∧
  cfg.dark_lux < cfg.bright_lux ∧
  0 ≤ cfg.min_saturation ∧ cfg.min_saturation ≤ cfg.max_saturation ∧
  cfg.max_saturation ≤ 255

instance (cfg : MapperConfig) : Decidable cfg.Valid := by
  unfold MapperConfig.Valid; infer_instance

/-- pipeline.py, map_measurement lines 61-66: resolve the effective lux
(`lux` if present, else `normalized * bright_lux`, else `dark_lux`). -/
def effectiveLux (cfg : MapperConfig) (m : LightMeasurement) : ℚ :=
  match m.lux, m.normalized with
  | some l, _ => l
  | none, some n => n * cfg.bright_lux
  | none, none => cfg.dark_lux

/-- pipeline.py line 68: `max(bright_lux - dark_lux, 1e-6)`. -/
def luxRange (cfg : MapperConfig) : ℚ :=
  max (cfg.bright_lux - cfg.dark_lux) (1/1000000)

/-- pipeline.py line 69: `(lux_value - dark_lux) / lux_range`. -/
def adjustedOf (cfg : MapperConfig) (m : LightMeasurement) : ℚ :=
  (effectiveLux cfg m - cfg.dark_lux) / luxRange cfg

/-- pipeline.py line 70: `_clamp(adjusted, 0.0, 1.0)`. -/
def normalizedOf (cfg : MapperConfig) (m : LightMeasurement) : ℚ :=
  clampVal (adjustedOf cfg m) 0 1

/-- pipeline.py line 71: `_blend(min_brightness, max_brightness, normalized)`. -/
def rawBrightness (cfg : MapperConfig) (m : LightMeasurement) : ℚ :=
  blendVal cfg.min_brightness cfg.max_brightness (normalizedOf cfg m)

/-- pipeline.py lines 82-87: synthetic warm/cool blend rounded into a color. -/
def blendedSource (cfg : MapperConfig) (factor : ℚ) : ColorRGB :=
  { red := pyround (clampVal (blendColor cfg.warm_color cfg.cool_color factor).1 0 255)
    green := pyround (clampVal (blendColor cfg.warm_color cfg.cool_color factor).2.1 0 255)
    blue := pyround (clampVal (blendColor cfg.warm_color cfg.cool_color factor).2.2 0 255) }

/-- pipeline.py lines 79-87: source color of the light branch (camera
average when enabled and present, else the warm/cool blend). -/
def lightSource (cfg : MapperConfig) (m : LightMeasurement) (factor : ℚ) : ColorRGB :=
  match cfg.use_camera_average, m.average_color with
  | true, some avg => avg
  | _, _ => blendedSource cfg factor

/-- pipeline.py lines 89-92: per-channel scaling, clamping and rounding. -/
def scaleColor (c : ColorRGB) (scale : ℚ) : ColorRGB :=
  { red := pyround (clampVal ((c.red : ℚ) * scale) 0 255)
    green := pyround (clampVal ((c.green : ℚ) * scale) 0 255)
    blue := pyround (clampVal ((c.blue : ℚ) * scale) 0 255) }

/-- pipeline.py lines 74-92: the output RGB color of the command (dark
branch keeps `dark_color` unscaled; light branch scales the source). -/
def rgbColorOf (cfg : MapperConfig) (m : LightMeasurement) : ColorRGB :=
  if normalizedOf cfg m ≤ 0 then cfg.dark_color
  else scaleColor (lightSource cfg m (normalizedOf cfg m)) (rawBrightness cfg m / 255)

/-- pipeline.py lines 74-78: the pre-clamp brightness after the dark-floor
branch (`max(brightness, dark_brightness)` in the dark branch). -/
def brightness2Of (cfg : MapperConfig) (m : LightMeasurement) : ℚ :=
  if normalizedOf cfg m ≤ 0 then max (rawBrightness cfg m) cfg.dark_brightness
  else rawBrightness cfg m

/-- pipeline.py line 94: the color whose HSV saturation is reported
(camera average when present, else the branch's source color). -/
def satSourceOf (cfg : MapperConfig) (m : LightMeasurement) : ColorRGB :=
  m.average_color.getD
    (if normalizedOf cfg m ≤ 0 then cfg.dark_color
     else lightSource cfg m (normalizedOf cfg m))

/-- colorsys.rgb_to_hsv, saturation component only.  `(maxc-minc)/maxc`
raises ZeroDivisionError in Python when `maxc = 0` with `minc < maxc`,
which is modelled as `none`. -/
def rgbToHsvSat (r g b : ℚ) : Option ℚ :=
  if min r (min g b) = max r (max g b) then some 0
  else if max r (max g b) = 0 then none
  else some ((max r (max g b) - min r (min g b)) / max r (max g b))

/-- pipeline.py, `DefaultColorMapper.map_measurement` (lines 59-106),
assembled from the per-line definitions above. -/
def mapMeasurement (cfg : MapperConfig) (m : LightMeasurement) : Option LampColorCommand :=
  match rgbToHsvSat ((satSourceOf cfg m).red / 255) ((satSourceOf cfg m).green / 255)
      ((satSourceOf cfg m).blue / 255) with
  | none => none
  | some saturation =>
    some { color := rgbColorOf cfg m
           brightness := pyround (clampVal (brightness2Of cfg m) 0 255)
           saturation := pyround (clampVal
             (clampVal (saturation * 255) cfg.min_saturation cfg.max_saturation) 0 255) }

theorem clampVal_of_mem {x lo hi : ℚ} (h1 : lo ≤ x) (h2 : x ≤ hi) :
    clampVal x lo hi = x := by
  unfold clampVal
  rw [min_eq_right h2, max_eq_right h1]

theorem clampVal_mem {x lo hi : ℚ} (h : lo ≤ hi) :
    lo ≤ clampVal x lo hi ∧ clampVal x lo hi ≤ hi := by
  unfold clampVal
  constructor
  · exact le_max_left lo (min hi x)
  · exact max_le h (min_le_left hi x)

theorem clampVal_mono {x y lo hi : ℚ} (h : x ≤ y) :
    clampVal x lo hi ≤ clampVal y lo hi := by
  unfold clampVal
  exact max_le_max le_rfl (min_le_min le_rfl h)

theorem blendVal_zero (a b : ℚ) : blendVal a b 0 = a := by
  unfold blendVal; ring

theorem blendVal_one (a b : ℚ) : blendVal a b 1 = b := by
  unfold blendVal; ring

theorem blendVal_mono {a b s t : ℚ} (hab : a ≤ b) (hst : s ≤ t) :
    blendVal a b s ≤ blendVal a b t := by
  unfold blendVal
  have := mul_le_mul_of_nonneg_left hst (by linarith : (0:ℚ) ≤ b - a)
  linarith

/-- With non-negative channels the saturation never divides by zero and is
a value in [0,1]. -/
theorem rgbToHsvSat_of_nonneg {r g b : ℚ} (hr : 0 ≤ r) (hg : 0 ≤ g) (hb : 0 ≤ b) :
    ∃ s, rgbToHsvSat r g b = some s ∧ 0 ≤ s ∧ s ≤ 1 := by
  unfold rgbToHsvSat
  by_cases heq : min r (min g b) = max r (max g b)
  · exact ⟨0, by rw [if_pos heq], le_refl 0, by norm_num⟩
  · have hminnn : 0 ≤ min r (min g b) := le_min hr (le_min hg hb)
    have hminmax : min r (min g b) ≤ max r (max g b) :=
      le_trans (min_le_left r (min g b)) (le_max_left r (max g b))
    have hmaxpos : 0 < max r (max g b) := by
      rcases lt_or_eq_of_le (le_trans hminnn hminmax) with h | h
      · exact h
      · exact absurd (le_antisymm hminmax (h ▸ hminnn)) heq
    refine ⟨_, by rw [if_neg heq, if_neg (ne_of_gt hmaxpos)], ?_, ?_⟩
    · exact div_nonneg (by linarith) hmaxpos.le
    · rw [div_le_one hmaxpos]; linarith

theorem blendedSource_valid (cfg : MapperConfig) (t : ℚ) : (blendedSource cfg t).Valid := by
  unfold blendedSource ColorRGB.Valid
  refine ⟨?_, ?_, ?_, ?_, ?_, ?_⟩ <;>
    first
    | exact (pyround_mem_of_le 0 255
        (clampVal_mem (by norm_num)).1 (clampVal_mem (by norm_num)).2).1
    | exact (pyround_mem_of_le 0 255
        (clampVal_mem (by norm_num)).1 (clampVal_mem (by norm_num)).2).2

theorem scaleColor_valid (c : ColorRGB) (s : ℚ) : (scaleColor c s).Valid := by
  unfold scaleColor ColorRGB.Valid
  refine ⟨?_, ?_, ?_, ?_, ?_, ?_⟩ <;>
    first
    | exact (pyround_mem_of_le 0 255
        (clampVal_mem (by norm_num)).1 (clampVal_mem (by norm_num)).2).1
    | exact (pyround_mem_of_le 0 255
        (clampVal_mem (by norm_num)).1 (clampVal_mem (by norm_num)).2).2

theorem satSourceOf_valid {cfg : MapperConfig} {m : LightMeasurement}
    (hd : cfg.dark_color.Valid) (hm : m.Valid) : (satSourceOf cfg m).Valid := by
  unfold satSourceOf
  cases havg : m.average_color with
  | some avg => exact hm avg havg
  | none =>
    simp only [Option.getD_none]
    by_cases hb : normalizedOf cfg m ≤ 0
    · rw [if_pos hb]; exact hd
    · rw [if_neg hb]
      unfold lightSource
      rw [havg]
      cases cfg.use_camera_average <;> exact blendedSource_valid cfg _

/-- With a well-formed saturation source the mapper reaches its final
`return`, with the HSV saturation a value in [0,1]. -/
theorem mapMeasurement_eq_some {cfg : MapperConfig} {m : LightMeasurement}
    (h : (satSourceOf cfg m).Valid) :
    ∃ s, 0 ≤ s ∧ s ≤ 1 ∧
      mapMeasurement cfg m =
        some { color := rgbColorOf cfg m
               brightness := pyround (clampVal (brightness2Of cfg m) 0 255)
               saturation := pyround (clampVal
                 (clampVal (s * 255) cfg.min_saturation cfg.max_saturation) 0 255) } := by
  obtain ⟨h1, _, h3, _, h5, _⟩ := h
  obtain ⟨s, hs, hs0, hs1⟩ :=
    rgbToHsvSat_of_nonneg
      (r := ((satSourceOf cfg m).red : ℚ) / 255)
      (g := ((satSourceOf cfg m).green : ℚ) / 255)
      (b := ((satSourceOf cfg m).blue : ℚ) / 255)
      (div_nonneg (by exact_mod_cast h1) (by norm_num))
      (div_nonneg (by exact_mod_cast h3) (by norm_num))
      (div_nonneg (by exact_mod_cast h5) (by norm_num))
  refine ⟨s, hs0, hs1, ?_⟩
  unfold mapMeasurement
  rw [hs]

theorem luxRange_pos (cfg : MapperConfig) : 0 < luxRange cfg :=
  lt_of_lt_of_le (by norm_num) (le_max_right (cfg.bright_lux - cfg.dark_lux) (1/1000000))

theorem normalizedOf_eq_zero {cfg : MapperConfig} {m : LightMeasurement}
    (h : effectiveLux cfg m ≤ cfg.dark_lux) : normalizedOf cfg m = 0 := by
  have hadj : adjustedOf cfg m ≤ 0 := by
    unfold adjustedOf
    rw [div_le_iff₀ (luxRange_pos cfg)]
    linarith
  unfold normalizedOf clampVal
  rw [min_eq_right (le_trans hadj zero_le_one), max_eq_left hadj]

/-- C1: a measurement whose effective lux is at most `dark_lux` lands in the
dark branch: the command's color is exactly `dark_color` (unscaled) and its
brightness is `max(lerp(min_brightness, max_brightness, 0), dark_brightness)`
rounded. -/
theorem spec_c1_dark_floor (cfg : MapperConfig) (m : LightMeasurement)
    (hcfg : cfg.Valid) (hm : m.Valid)
    (hlux : effectiveLux cfg m ≤ cfg.dark_lux) :
    ∃ cmd, mapMeasurement cfg m = some cmd ∧ cmd.color = cfg.dark_color ∧
      cmd.brightness =
        pyround (max (blendVal cfg.min_brightness cfg.max_brightness 0) cfg.dark_brightness) := by
  obtain ⟨hw, hc, hd, hminb0, hminmax, hmax255, hdb0, hdb255, hdlux, hsat⟩ := hcfg
  have hnorm : normalizedOf cfg m = 0 := normalizedOf_eq_zero hlux
  obtain ⟨s, hs0, hs1, heq⟩ := mapMeasurement_eq_some (satSourceOf_valid hd hm)
  refine ⟨_, heq, ?_, ?_⟩
  · show rgbColorOf cfg m = cfg.dark_color
    unfold rgbColorOf
    rw [hnorm, if_pos le_rfl]
  · show pyround (clampVal (brightness2Of cfg m) 0 255) = _
    have hbr2 : brightness2Of cfg m =
        max (blendVal cfg.min_brightness cfg.max_brightness 0) cfg.dark_brightness := by
      unfold brightness2Of rawBrightness
      rw [hnorm, if_pos le_rfl]
    rw [hbr2, clampVal_of_mem ?_ ?_]
    · rw [blendVal_zero]
      exact le_max_of_le_left hminb0
    · rw [blendVal_zero]
      exact max_le (by linarith) hdb255

/-- The dataclass-default `MapperConfig()` of pipeline.py. -/
def defaultMapperConfig : MapperConfig := {}

/-- C1 witness: the spec scenario `lux=0, darkLux=0, brightLux=255` on the
default configuration yields the configured dark color `(20,4,3)`. -/
theorem spec_c1_dark_floor_witness :
    ∃ cmd, mapMeasurement defaultMapperConfig ⟨some 0, none, none, none⟩ = some cmd ∧
      cmd.color = defaultMapperConfig.dark_color ∧
      cmd.brightness = pyround (max
        (blendVal defaultMapperConfig.min_brightness defaultMapperConfig.max_brightness 0)
        defaultMapperConfig.dark_brightness) :=
  spec_c1_dark_floor defaultMapperConfig ⟨some 0, none, none, none⟩
    (by decide) (by decide) (by decide)

/-- C7: over the data model (in-range colors) the mapper is total: it
always reaches its `return`, and the lux-range divisor is floored at the
`1e-6` epsilon (so a zero-width `dark_lux`/`bright_lux` pair cannot make a
division ill-defined). -/
theorem spec_c7_mapper_total (cfg : MapperConfig) (m : LightMeasurement)
    (hd : cfg.dark_color.Valid) (hm : m.Valid) :
    (mapMeasurement cfg m).isSome = true ∧ (1/1000000 : ℚ) ≤ luxRange cfg := by
  constructor
  · obtain ⟨s, _, _, heq⟩ := mapMeasurement_eq_some (satSourceOf_valid hd hm)
    rw [heq]; rfl
  · exact le_max_right _ _

/-- C7 witness: a zero-width lux range (`bright_lux = dark_lux = 0`) still
produces a command. -/
theorem spec_c7_mapper_total_witness :
    (mapMeasurement { dark_lux := 0, bright_lux := 0 }
        ⟨some 5, none, none, none⟩).isSome = true ∧
      (1/1000000 : ℚ) ≤ luxRange { dark_lux := 0, bright_lux := 0 } :=
  spec_c7_mapper_total { dark_lux := 0, bright_lux := 0 } ⟨some 5, none, none, none⟩
    (by decide) (by decide)

/-- C10: with in-range input colors every numeric field of the returned
command is an integer in [0,255]. -/
theorem spec_c10_output_range (cfg : MapperConfig) (m : LightMeasurement)
    (hw : cfg.warm_color.Valid) (hc : cfg.cool_color.Valid)
    (hd : cfg.dark_color.Valid) (hm : m.Valid) :
    ∃ cmd, mapMeasurement cfg m = some cmd ∧ cmd.color.Valid ∧
      0 ≤ cmd.brightness ∧ cmd.brightness ≤ 255 ∧
      0 ≤ cmd.saturation ∧ cmd.saturation ≤ 255 := by
  obtain ⟨s, hs0, hs1, heq⟩ := mapMeasurement_eq_some (satSourceOf_valid hd hm)
  refine ⟨_, heq, ?_, ?_, ?_, ?_, ?_⟩
  · show (rgbColorOf cfg m).Valid
    unfold rgbColorOf
    by_cases hb : normalizedOf cfg m ≤ 0
    · rw [if_pos hb]; exact hd
    · rw [if_neg hb]; exact scaleColor_valid _ _
  all_goals
    first
    | exact (pyround_mem_of_le 0 255
        (clampVal_mem (by norm_num)).1 (clampVal_mem (by norm_num)).2).1
    | exact (pyround_mem_of_le 0 255
        (clampVal_mem (by norm_num)).1 (clampVal_mem (by norm_num)).2).2

/-- C10 witness: the default configuration applied to a measurement
carrying a camera average color. -/
theorem spec_c10_output_range_witness :
    ∃ cmd, mapMeasurement defaultMapperConfig
        ⟨some 100, none, some ⟨10, 200, 30⟩, none⟩ = some cmd ∧ cmd.color.Valid ∧
      0 ≤ cmd.brightness ∧ cmd.brightness ≤ 255 ∧
      0 ≤ cmd.saturation ∧ cmd.saturation ≤ 255 :=
  spec_c10_output_range defaultMapperConfig ⟨some 100, none, some ⟨10, 200, 30⟩, none⟩
    (by decide) (by decide) (by decide) (by decide)

theorem normalizedOf_nonneg (cfg : MapperConfig) (m : LightMeasurement) :
    0 ≤ normalizedOf cfg m :=
  (clampVal_mem (x := adjustedOf cfg m) (by norm_num : (0:ℚ) ≤ 1)).1

theorem normalizedOf_le_one (cfg : MapperConfig) (m : LightMeasurement) :
    normalizedOf cfg m ≤ 1 :=
  (clampVal_mem (x := adjustedOf cfg m) (by norm_num : (0:ℚ) ≤ 1)).2

/-- When the configured lux width is at least the `1e-6` epsilon and the
measured lux reaches `bright_lux`, the clamped normalized input is 1. -/
theorem normalizedOf_eq_one {cfg : MapperConfig} {m : LightMeasurement} {l : ℚ}
    (heps : 1/1000000 ≤ cfg.bright_lux - cfg.dark_lux)
    (hlux : m.lux = some l) (hl : cfg.bright_lux ≤ l) : normalizedOf cfg m = 1 := by
  have heff : effectiveLux cfg m = l := by
    unfold effectiveLux
    rw [hlux]
  have hrange : luxRange cfg = cfg.bright_lux - cfg.dark_lux := max_eq_left heps
  have hpos : (0:ℚ) < cfg.bright_lux - cfg.dark_lux := by linarith
  have hadj : 1 ≤ adjustedOf cfg m := by
    unfold adjustedOf
    rw [heff, hrange, le_div_iff₀ hpos]
    linarith
  unfold normalizedOf clampVal
  rw [min_eq_left hadj, max_eq_right zero_le_one]

/-- The source color of the bright branch as the spec states it: the camera
average when that mode is enabled and an average is present, else
`cool_color`. -/
def brightSource (cfg : MapperConfig) (m : LightMeasurement) : ColorRGB :=
  match cfg.use_camera_average, m.average_color with
  | true, some avg => avg
  | _, _ => cfg.cool_color

theorem blendedSource_one {cfg : MapperConfig} (hc : cfg.cool_color.Valid) :
    blendedSource cfg 1 = cfg.cool_color := by
  obtain ⟨h1, h2, h3, h4, h5, h6⟩ := hc
  unfold blendedSource blendColor
  have hr : blendVal (cfg.warm_color.red : ℚ) (cfg.cool_color.red : ℚ) 1 = cfg.cool_color.red :=
    blendVal_one _ _
  have hg : blendVal (cfg.warm_color.green : ℚ) (cfg.cool_color.green : ℚ) 1 = cfg.cool_color.green :=
    blendVal_one _ _
  have hb : blendVal (cfg.warm_color.blue : ℚ) (cfg.cool_color.blue : ℚ) 1 = cfg.cool_color.blue :=
    blendVal_one _ _
  simp only [hr, hg, hb]
  rw [clampVal_of_mem (by exact_mod_cast h1) (by exact_mod_cast h2),
    clampVal_of_mem (by exact_mod_cast h3) (by exact_mod_cast h4),
    clampVal_of_mem (by exact_mod_cast h5) (by exact_mod_cast h6),
    pyround_intCast, pyround_intCast, pyround_intCast]

theorem pyround_eq_floor {q : ℚ} {f : ℤ} (hf : ⌊q⌋ = f) (h : q - f < 1/2) :
    pyround q = f := by
  unfold pyround
  rw [hf, if_pos h]

theorem pyround_eq_floor_add_one {q : ℚ} {f : ℤ} (hf : ⌊q⌋ = f) (h : 1/2 < q - f) :
    pyround q = f + 1 := by
  unfold pyround
  rw [hf, if_neg (by linarith), if_pos h]

theorem pyround_half_odd {q : ℚ} {f : ℤ} (hf : ⌊q⌋ = f) (h : q - f = 1/2)
    (hodd : ¬ f % 2 = 0) : pyround q = f + 1 := by
  unfold pyround
  rw [hf, h, if_neg (lt_irrefl _), if_neg (lt_irrefl _), if_neg hodd]

theorem clampVal_same (x c : ℚ) : clampVal x c c = c := by
  unfold clampVal
  exact max_eq_left (min_le_left _ _)

/-- Configuration with `bright_lux - dark_lux = 1e-7`: it satisfies the
data-model invariant `dark_lux < bright_lux`, yet its width is below the
`1e-6` epsilon floor. -/
def c2CexConfig : MapperConfig := { bright_lux := 1/10000000 }

/-- The measurement sitting exactly at `c2CexConfig`'s bright point. -/
def c2CexMeasurement : LightMeasurement := ⟨some (1/10000000), none, none, none⟩

/-- C2 counterexample: with `bright_lux - dark_lux = 1e-7` and
`lux = bright_lux`, the returned brightness is 62, not `max_brightness`
rounded (255): the epsilon floor stretches the divisor, so the normalized
input stays at 1/10 instead of 1. -/
theorem spec_c2_counterexample :
    MapperConfig.Valid c2CexConfig ∧
    c2CexMeasurement.lux = some c2CexConfig.bright_lux ∧
    (∃ cmd, mapMeasurement c2CexConfig c2CexMeasurement = some cmd ∧
      cmd.brightness = 62) ∧
    pyround c2CexConfig.max_brightness = 255 ∧ (62 : ℤ) ≠ 255 := by
  have hvalid : MapperConfig.Valid c2CexConfig := by
    unfold MapperConfig.Valid ColorRGB.Valid c2CexConfig
    norm_num
  have hnorm : normalizedOf c2CexConfig c2CexMeasurement = 1/10 := by
    have hadj : adjustedOf c2CexConfig c2CexMeasurement = 1/10 := by
      unfold adjustedOf effectiveLux luxRange c2CexMeasurement c2CexConfig
      rw [max_eq_right (by norm_num)]
      norm_num
    unfold normalizedOf
    rw [hadj, clampVal_of_mem (by norm_num) (by norm_num)]
  have hb2 : brightness2Of c2CexConfig c2CexMeasurement = 123/2 := by
    unfold brightness2Of rawBrightness
    rw [hnorm, if_neg (by norm_num)]
    unfold blendVal c2CexConfig
    norm_num
  obtain ⟨s, hs0, hs1, heq⟩ := @mapMeasurement_eq_some c2CexConfig c2CexMeasurement
    (satSourceOf_valid (by decide) (by decide))
  refine ⟨hvalid, rfl, ⟨_, heq, ?_⟩, ?_, by decide⟩
  · show pyround (clampVal (brightness2Of c2CexConfig c2CexMeasurement) 0 255) = 62
    rw [hb2, clampVal_of_mem (by norm_num) (by norm_num)]
    have : (62 : ℤ) = 61 + 1 := by norm_num
    rw [this]
    refine pyround_half_odd ?_ (by norm_num) (by decide)
    rw [Int.floor_eq_iff]
    norm_num
  · show pyround (255 : ℚ) = 255
    rw [show (255 : ℚ) = ((255 : ℤ) : ℚ) by norm_num, pyround_intCast]

/-- C2 (amended): whenever the configured lux width is at least the `1e-6`
epsilon (in particular for any loader-produced configuration, whose width
is at least 1), a measurement with `lux >= bright_lux` is mapped to
brightness `max_brightness` rounded, and to the per-channel scaling by
`max_brightness / 255` of the cool color (or of the camera average when
that mode is enabled and an average is present). -/
theorem spec_c2_bright_point (cfg : MapperConfig) (m : LightMeasurement) (l : ℚ)
    (hcfg : cfg.Valid) (hm : m.Valid)
    (heps : 1/1000000 ≤ cfg.bright_lux - cfg.dark_lux)
    (hlux : m.lux = some l) (hl : cfg.bright_lux ≤ l) :
    ∃ cmd, mapMeasurement cfg m = some cmd ∧
      cmd.brightness = pyround cfg.max_brightness ∧
      cmd.color = scaleColor (brightSource cfg m) (cfg.max_brightness / 255) := by
  obtain ⟨hw, hc, hd, hminb0, hminmax, hmax255, hdb0, hdb255, hdlux, hsat⟩ := hcfg
  have hnorm : normalizedOf cfg m = 1 := normalizedOf_eq_one heps hlux hl
  have hnot : ¬ normalizedOf cfg m ≤ 0 := by rw [hnorm]; norm_num
  have hraw : rawBrightness cfg m = cfg.max_brightness := by
    unfold rawBrightness
    rw [hnorm, blendVal_one]
  obtain ⟨s, hs0, hs1, heq⟩ := mapMeasurement_eq_some (satSourceOf_valid hd hm)
  refine ⟨_, heq, ?_, ?_⟩
  · show pyround (clampVal (brightness2Of cfg m) 0 255) = pyround cfg.max_brightness
    unfold brightness2Of
    rw [if_neg hnot, hraw, clampVal_of_mem (by linarith) hmax255]
  · show rgbColorOf cfg m = _
    unfold rgbColorOf
    rw [if_neg hnot, hnorm, hraw]
    have hsrc : lightSource cfg m 1 = brightSource cfg m := by
      unfold lightSource brightSource
      cases hcam : cfg.use_camera_average with
      | false => cases m.average_color <;> exact blendedSource_one hc
      | true => cases m.average_color with
        | none => exact blendedSource_one hc
        | some avg => rfl
    rw [hsrc]

/-- C2 witness: the spec scenario `lux=255, darkLux=0, brightLux=255` with
the default warm/cool colors maps to cool color scaled by 1 and brightness
`max_brightness` rounded. -/
theorem spec_c2_bright_point_witness :
    ∃ cmd, mapMeasurement defaultMapperConfig ⟨some 255, none, none, none⟩ = some cmd ∧
      cmd.brightness = pyround defaultMapperConfig.max_brightness ∧
      cmd.color = scaleColor (brightSource defaultMapperConfig ⟨some 255, none, none, none⟩)
        (defaultMapperConfig.max_brightness / 255) :=
  spec_c2_bright_point defaultMapperConfig ⟨some 255, none, none, none⟩ 255
    (by decide) (by decide) (by norm_num [defaultMapperConfig]) rfl (by decide)

/-- Configuration whose dark-floor brightness (100) exceeds
`min_brightness` (40); every field satisfies the data-model invariants. -/
def c3CexConfig : MapperConfig := { dark_brightness := 100 }

/-- C3 counterexample: with `dark_brightness = 100 > min_brightness = 40`,
raising lux from 0 to 1 drops the output brightness from 100 (dark floor)
to 41, so brightness is not monotone in lux for every configuration. -/
theorem spec_c3_counterexample :
    MapperConfig.Valid c3CexConfig ∧ (0 : ℚ) ≤ 1 ∧
    ∃ cA cB, mapMeasurement c3CexConfig ⟨some 0, none, none, none⟩ = some cA ∧
      mapMeasurement c3CexConfig ⟨some 1, none, none, none⟩ = some cB ∧
      cA.brightness = 100 ∧ cB.brightness = 41 ∧ ¬ cA.brightness ≤ cB.brightness := by
  have hvalid : MapperConfig.Valid c3CexConfig := by decide
  obtain ⟨sA, _, _, heqA⟩ := @mapMeasurement_eq_some c3CexConfig ⟨some 0, none, none, none⟩
    (satSourceOf_valid (by decide) (by decide))
  obtain ⟨sB, _, _, heqB⟩ := @mapMeasurement_eq_some c3CexConfig ⟨some 1, none, none, none⟩
    (satSourceOf_valid (by decide) (by decide))
  have hnA : normalizedOf c3CexConfig ⟨some 0, none, none, none⟩ = 0 :=
    normalizedOf_eq_zero (by norm_num [effectiveLux, c3CexConfig])
  have hbrA : pyround (clampVal
      (brightness2Of c3CexConfig ⟨some 0, none, none, none⟩) 0 255) = 100 := by
    have hb2 : brightness2Of c3CexConfig ⟨some 0, none, none, none⟩ = 100 := by
      unfold brightness2Of rawBrightness
      rw [hnA, if_pos le_rfl, blendVal_zero]
      show max c3CexConfig.min_brightness c3CexConfig.dark_brightness = 100
      rw [max_eq_right (by norm_num [c3CexConfig])]
      norm_num [c3CexConfig]
    rw [hb2, clampVal_of_mem (by norm_num) (by norm_num),
      show (100 : ℚ) = ((100 : ℤ) : ℚ) by norm_num, pyround_intCast]
  have hnB : normalizedOf c3CexConfig ⟨some 1, none, none, none⟩ = 1/255 := by
    have hadj : adjustedOf c3CexConfig ⟨some 1, none, none, none⟩ = 1/255 := by
      unfold adjustedOf effectiveLux luxRange c3CexConfig
      rw [max_eq_left (by norm_num)]
      norm_num
    unfold normalizedOf
    rw [hadj, clampVal_of_mem (by norm_num) (by norm_num)]
  have hbrB : pyround (clampVal
      (brightness2Of c3CexConfig ⟨some 1, none, none, none⟩) 0 255) = 41 := by
    have hb2 : brightness2Of c3CexConfig ⟨some 1, none, none, none⟩ = 2083/51 := by
      unfold brightness2Of rawBrightness
      rw [hnB, if_neg (by norm_num)]
      unfold blendVal c3CexConfig
      norm_num
    rw [hb2, clampVal_of_mem (by norm_num) (by norm_num),
      show (41 : ℤ) = 40 + 1 by norm_num]
    refine pyround_eq_floor_add_one ?_ (by norm_num)
    rw [Int.floor_eq_iff]
    norm_num
  rw [hbrA] at heqA
  rw [hbrB] at heqB
  have hlast : ¬ (100 : ℤ) ≤ 41 := by decide
  have h01 : (0 : ℚ) ≤ 1 := by norm_num
  exact ⟨hvalid, h01, _, _, heqA, heqB, rfl, rfl, hlast⟩

theorem brightness2Of_eq_raw {cfg : MapperConfig} (m : LightMeasurement)
    (hdb : cfg.dark_brightness ≤ cfg.min_brightness) :
    brightness2Of cfg m = rawBrightness cfg m := by
  unfold brightness2Of
  by_cases hb : normalizedOf cfg m ≤ 0
  · rw [if_pos hb]
    have h0 : normalizedOf cfg m = 0 := le_antisymm hb (normalizedOf_nonneg cfg m)
    unfold rawBrightness
    rw [h0, blendVal_zero]
    exact max_eq_left hdb
  · rw [if_neg hb]

/-- C3 (amended): for configurations whose dark-floor brightness does not
exceed `min_brightness` (as in the defaults, 12 vs 40), increasing lux while
holding every other measurement field constant never decreases the output
brightness. -/
theorem spec_c3_brightness_monotone (cfg : MapperConfig) (m : LightMeasurement) (a b : ℚ)
    (hcfg : cfg.Valid) (hm : m.Valid)
    (hdb : cfg.dark_brightness ≤ cfg.min_brightness) (hab : a ≤ b) :
    ∃ cA cB, mapMeasurement cfg { m with lux := some a } = some cA ∧
      mapMeasurement cfg { m with lux := some b } = some cB ∧
      cA.brightness ≤ cB.brightness := by
  obtain ⟨hw, hc, hd, hminb0, hminmax, hmax255, hdb0, hdb255, hdlux, hsat⟩ := hcfg
  have hmA : ({ m with lux := some a } : LightMeasurement).Valid := hm
  have hmB : ({ m with lux := some b } : LightMeasurement).Valid := hm
  obtain ⟨sA, _, _, heqA⟩ := mapMeasurement_eq_some (satSourceOf_valid hd hmA)
  obtain ⟨sB, _, _, heqB⟩ := mapMeasurement_eq_some (satSourceOf_valid hd hmB)
  refine ⟨_, _, heqA, heqB, ?_⟩
  show pyround (clampVal (brightness2Of cfg { m with lux := some a }) 0 255) ≤
    pyround (clampVal (brightness2Of cfg { m with lux := some b }) 0 255)
  rw [brightness2Of_eq_raw _ hdb, brightness2Of_eq_raw _ hdb]
  apply pyround_mono
  apply clampVal_mono
  unfold rawBrightness
  apply blendVal_mono hminmax
  unfold normalizedOf
  apply clampVal_mono
  unfold adjustedOf
  have heffA : effectiveLux cfg { m with lux := some a } = a := rfl
  have heffB : effectiveLux cfg { m with lux := some b } = b := rfl
  rw [heffA, heffB]
  have hr : 0 < luxRange cfg := luxRange_pos cfg
  gcongr

/-- C3 witness: on the default configuration, lux 10 versus lux 200. -/
theorem spec_c3_brightness_monotone_witness :
    ∃ cA cB, mapMeasurement defaultMapperConfig ⟨some 10, none, none, none⟩ = some cA ∧
      mapMeasurement defaultMapperConfig ⟨some 200, none, none, none⟩ = some cB ∧
      cA.brightness ≤ cB.brightness :=
  spec_c3_brightness_monotone defaultMapperConfig ⟨none, none, none, none⟩ 10 200
    (by decide) (by decide) (by decide) (by decide)

/-- Configuration with the non-integer saturation clamp
`min_saturation = max_saturation = 10.4`, valid per the data model. -/
def c4CexConfig : MapperConfig := { min_saturation := 52/5, max_saturation := 52/5 }

/-- C4 counterexample: with the saturation interval pinned at 10.4 the
clamped saturation value is 10.4, but the returned integer field is its
rounding 10, which lies outside `[min_saturation, max_saturation]`. -/
theorem spec_c4_counterexample :
    MapperConfig.Valid c4CexConfig ∧
    ∃ cmd, mapMeasurement c4CexConfig ⟨some 100, none, none, none⟩ = some cmd ∧
      cmd.saturation = 10 ∧ ¬ c4CexConfig.min_saturation ≤ (cmd.saturation : ℚ) := by
  have hvalid : MapperConfig.Valid c4CexConfig := by
    unfold MapperConfig.Valid ColorRGB.Valid c4CexConfig
    norm_num
  obtain ⟨s, hs0, hs1, heq⟩ := @mapMeasurement_eq_some c4CexConfig ⟨some 100, none, none, none⟩
    (satSourceOf_valid (by decide) (by decide))
  have hsat : pyround (clampVal (clampVal (s * 255)
      c4CexConfig.min_saturation c4CexConfig.max_saturation) 0 255) = 10 := by
    rw [show c4CexConfig.min_saturation = 52/5 from rfl,
      show c4CexConfig.max_saturation = 52/5 from rfl, clampVal_same,
      clampVal_of_mem (by norm_num) (by norm_num)]
    refine pyround_eq_floor ?_ (by norm_num)
    rw [Int.floor_eq_iff]
    norm_num
  rw [hsat] at heq
  have hlast : ¬ c4CexConfig.min_saturation ≤ ((10 : ℤ) : ℚ) := by
    norm_num [c4CexConfig]
  exact ⟨hvalid, _, heq, rfl, hlast⟩

/-- C4 (amended): when the configured saturation bounds are integral (as
they are in the defaults and for any integer-valued settings file), the
command's saturation lies inside `[min_saturation, max_saturation]`. -/
theorem spec_c4_saturation_range (cfg : MapperConfig) (m : LightMeasurement)
    (hcfg : cfg.Valid) (hm : m.Valid)
    (hminInt : cfg.min_saturation.den = 1) (hmaxInt : cfg.max_saturation.den = 1) :
    ∃ cmd, mapMeasurement cfg m = some cmd ∧
      cfg.min_saturation ≤ (cmd.saturation : ℚ) ∧
      (cmd.saturation : ℚ) ≤ cfg.max_saturation := by
  obtain ⟨hw, hc, hd, hminb0, hminmax, hmax255, hdb0, hdb255, hdlux, hsl0, hss, hs255⟩ := hcfg
  obtain ⟨s, hsn, hs1, heq⟩ := mapMeasurement_eq_some (satSourceOf_valid hd hm)
  have hmem := clampVal_mem (x := s * 255) hss
  have houter : clampVal (clampVal (s * 255) cfg.min_saturation cfg.max_saturation) 0 255 =
      clampVal (s * 255) cfg.min_saturation cfg.max_saturation :=
    clampVal_of_mem (le_trans hsl0 hmem.1) (le_trans hmem.2 hs255)
  have hminEq : ((cfg.min_saturation.num : ℤ) : ℚ) = cfg.min_saturation := by
    conv_rhs => rw [← Rat.num_div_den cfg.min_saturation]
    rw [hminInt]
    norm_num
  have hmaxEq : ((cfg.max_saturation.num : ℤ) : ℚ) = cfg.max_saturation := by
    conv_rhs => rw [← Rat.num_div_den cfg.max_saturation]
    rw [hmaxInt]
    norm_num
  have hbounds := pyround_mem_of_le cfg.min_saturation.num cfg.max_saturation.num
    (q := clampVal (s * 255) cfg.min_saturation cfg.max_saturation)
    (by rw [hminEq]; exact hmem.1) (by rw [hmaxEq]; exact hmem.2)
  refine ⟨_, heq, ?_, ?_⟩
  · show cfg.min_saturation ≤ (pyround (clampVal (clampVal (s * 255)
      cfg.min_saturation cfg.max_saturation) 0 255) : ℚ)
    rw [houter]
    have hcast : ((cfg.min_saturation.num : ℤ) : ℚ) ≤
        ((pyround (clampVal (s * 255) cfg.min_saturation cfg.max_saturation) : ℤ) : ℚ) := by
      exact_mod_cast hbounds.1
    rw [hminEq] at hcast
    exact hcast
  · show (pyround (clampVal (clampVal (s * 255)
      cfg.min_saturation cfg.max_saturation) 0 255) : ℚ) ≤ cfg.max_saturation
    rw [houter]
    have hcast : ((pyround (clampVal (s * 255) cfg.min_saturation cfg.max_saturation) : ℤ) : ℚ) ≤
        ((cfg.max_saturation.num : ℤ) : ℚ) := by
      exact_mod_cast hbounds.2
    rw [hmaxEq] at hcast
    exact hcast

/-- C4 witness: the default configuration (integer bounds 0 and 255) on a
measurement with a camera average color. -/
theorem spec_c4_saturation_range_witness :
    ∃ cmd, mapMeasurement defaultMapperConfig
        ⟨some 80, none, some ⟨200, 40, 90⟩, none⟩ = some cmd ∧
      defaultMapperConfig.min_saturation ≤ (cmd.saturation : ℚ) ∧
      (cmd.saturation : ℚ) ≤ defaultMapperConfig.max_saturation :=
  spec_c4_saturation_range defaultMapperConfig ⟨some 80, none, some ⟨200, 40, 90⟩, none⟩
    (by decide) (by decide) rfl rfl

/-- service.py, run, lines 42-45: the logged raw normalized value —
`measurement.normalized`, else `lux_value / 255.0` when `lux_value` is
truthy, else `0.0` (with `lux_value` defaulting to 0 when lux is absent). -/
def rawNormalized (m : LightMeasurement) : ℚ :=
  match m.normalized with
  | some n => n
  | none => if m.lux.getD 0 ≠ 0 then m.lux.getD 0 / 255 else 0

/-- One observed iteration of the synchronization loop: the raw normalized
value that gets logged, the command handed to the lamp (none when the tick
failed before actuation), and whether the tick raised. -/
structure TickLog where
  rawNorm : Option ℚ
  sent : Option LampColorCommand
  failed : Bool
deriving DecidableEq

/-- service.py, run, lines 39-81: the body of one tick under the
`try/except` — capture, derive log values, map, apply; any error from a
collaborator is caught and the tick merely records the failure. -/
def serviceTick (camera : ℕ → Except Unit LightMeasurement)
    (mapper : LightMeasurement → Except Unit LampColorCommand)
    (lamp : ℕ → LampColorCommand → Except Unit Unit) (k : ℕ) : TickLog :=
  match camera k with
  | .error _ => { rawNorm := none, sent := none, failed := true }
  | .ok m =>
    match mapper m with
    | .error _ => { rawNorm := some (rawNormalized m), sent := none, failed := true }
    | .ok cmd =>
      match lamp k cmd with
      | .error _ => { rawNorm := some (rawNormalized m), sent := some cmd, failed := true }
      | .ok _ => { rawNorm := some (rawNormalized m), sent := some cmd, failed := false }

/-- service.py, run, lines 38-82: `while not self._stop_condition(): ...`.
The stop predicate is indexed by how many times it has been called, the
collaborators by the tick number; `fuel` bounds the modelled unfolding and
`none` means the fuel ran out before the stop condition fired. -/
def runLoop (stop : ℕ → Bool) (camera : ℕ → Except Unit LightMeasurement)
    (mapper : LightMeasurement → Except Unit LampColorCommand)
    (lamp : ℕ → LampColorCommand → Except Unit Unit) :
    ℕ → ℕ → Option (List TickLog)
  | 0, _ => none
  | fuel + 1, k =>
    if stop k then some []
    else
      match runLoop stop camera mapper lamp fuel (k + 1) with
      | none => none
      | some rest => some (serviceTick camera mapper lamp k :: rest)

/-- service.py, `DaylightSyncService.run`: the loop started at tick 0. -/
def runService (stop : ℕ → Bool) (camera : ℕ → Except Unit LightMeasurement)
    (mapper : LightMeasurement → Except Unit LampColorCommand)
    (lamp : ℕ → LampColorCommand → Except Unit Unit) (fuel : ℕ) :
    Option (List TickLog) :=
  runLoop stop camera mapper lamp fuel 0

/-- The ticks the loop performs from `k`, `n` of them. -/
def tickList (camera : ℕ → Except Unit LightMeasurement)
    (mapper : LightMeasurement → Except Unit LampColorCommand)
    (lamp : ℕ → LampColorCommand → Except Unit Unit) : ℕ → ℕ → List TickLog
  | _, 0 => []
  | k, n + 1 => serviceTick camera mapper lamp k :: tickList camera mapper lamp (k + 1) n

theorem tickList_length (camera : ℕ → Except Unit LightMeasurement)
    (mapper : LightMeasurement → Except Unit LampColorCommand)
    (lamp : ℕ → LampColorCommand → Except Unit Unit) :
    ∀ n k, (tickList camera mapper lamp k n).length = n := by
  intro n
  induction n with
  | zero => intro k; rfl
  | succ n ih =>
    intro k
    show (serviceTick camera mapper lamp k :: tickList camera mapper lamp (k + 1) n).length = n + 1
    rw [List.length_cons, ih]

theorem tickList_get? (camera : ℕ → Except Unit LightMeasurement)
    (mapper : LightMeasurement → Except Unit LampColorCommand)
    (lamp : ℕ → LampColorCommand → Except Unit Unit) :
    ∀ n k i, i < n →
      (tickList camera mapper lamp k n).get? i = some (serviceTick camera mapper lamp (k + i)) := by
  intro n
  induction n with
  | zero => intro k i h; omega
  | succ n ih =>
    intro k i h
    cases i with
    | zero => rfl
    | succ i =>
      show (tickList camera mapper lamp (k + 1) n).get? i =
        some (serviceTick camera mapper lamp (k + (i + 1)))
      rw [show k + (i + 1) = (k + 1) + i from by omega]
      exact ih (k + 1) i (by omega)

/-- If the stop predicate is false on its first `n` calls (counted from
`k`) and true on the next one, and the fuel exceeds `n`, the loop runs
exactly the ticks `k, ..., k+n-1` and then halts. -/
theorem runLoop_eq_tickList (stop : ℕ → Bool)
    (camera : ℕ → Except Unit LightMeasurement)
    (mapper : LightMeasurement → Except Unit LampColorCommand)
    (lamp : ℕ → LampColorCommand → Except Unit Unit) :
    ∀ n k fuel, (∀ j, j < n → stop (k + j) = false) → stop (k + n) = true → n < fuel →
      runLoop stop camera mapper lamp fuel k = some (tickList camera mapper lamp k n) := by
  intro n
  induction n with
  | zero =>
    intro k fuel hfalse htrue hfuel
    obtain ⟨f, rfl⟩ : ∃ f, fuel = f + 1 := ⟨fuel - 1, by omega⟩
    show (if stop k then some [] else _) = some []
    rw [Nat.add_zero] at htrue
    rw [htrue]
    rfl
  | succ n ih =>
    intro k fuel hfalse htrue hfuel
    obtain ⟨f, rfl⟩ : ∃ f, fuel = f + 1 := ⟨fuel - 1, by omega⟩
    have hk : stop k = false := by
      have := hfalse 0 (by omega)
      rwa [Nat.add_zero] at this
    show (if stop k then some [] else _) = _
    rw [hk]
    have hrest : runLoop stop camera mapper lamp f (k + 1) =
        some (tickList camera mapper lamp (k + 1) n) := by
      refine ih (k + 1) f ?_ ?_ (by omega)
      · intro j hj
        have := hfalse (j + 1) (by omega)
        rwa [show k + (j + 1) = k + 1 + j by omega] at this
      · rwa [show k + 1 + n = k + (n + 1) by omega]
    simp only [if_neg (by simp [hk] : ¬ stop k = true), hrest]
    rfl

/-- C5: if the stop predicate is false on its first N calls and true on the
(N+1)-th, the loop performs exactly N iterations and then halts, whatever
the camera, mapper or lamp do on any tick. -/
theorem spec_c5_loop_count (stop : ℕ → Bool)
    (camera : ℕ → Except Unit LightMeasurement)
    (mapper : LightMeasurement → Except Unit LampColorCommand)
    (lamp : ℕ → LampColorCommand → Except Unit Unit) (N fuel : ℕ)
    (hfalse : ∀ j, j < N → stop j = false) (htrue : stop N = true) (hfuel : N < fuel) :
    ∃ logs, runService stop camera mapper lamp fuel = some logs ∧ logs.length = N := by
  refine ⟨tickList camera mapper lamp 0 N, ?_, tickList_length camera mapper lamp N 0⟩
  unfold runService
  refine runLoop_eq_tickList stop camera mapper lamp N 0 fuel ?_ ?_ hfuel
  · intro j hj
    rw [Nat.zero_add]
    exact hfalse j hj
  · rw [Nat.zero_add]
    exact htrue

/-- C5 witness: stop after 2 calls, with the camera failing on tick 0 and
the lamp rejecting on tick 1: the loop still performs exactly 2 ticks. -/
theorem spec_c5_loop_count_witness :
    ∃ logs, runService (fun k => decide (2 ≤ k))
      (fun k => if k = 0 then .error () else .ok ⟨some 50, none, none, none⟩)
      (fun m => .ok ⟨⟨0, 0, 0⟩, 0, 0⟩)
      (fun k _ => if k = 1 then .error () else .ok ()) 5 = some logs ∧
      logs.length = 2 :=
  spec_c5_loop_count _ _ _ _ 2 5 (by decide) (by decide) (by decide)

/-- C6: errors from the collaborators are confined to their tick: the loop
still performs all N ticks and halts, and on any tick where the camera
raised, no lamp command is sent and the failure is recorded. -/
theorem spec_c6_error_isolation (stop : ℕ → Bool)
    (camera : ℕ → Except Unit LightMeasurement)
    (mapper : LightMeasurement → Except Unit LampColorCommand)
    (lamp : ℕ → LampColorCommand → Except Unit Unit) (N fuel : ℕ)
    (hfalse : ∀ j, j < N → stop j = false) (htrue : stop N = true) (hfuel : N < fuel) :
    ∃ logs, runService stop camera mapper lamp fuel = some logs ∧ logs.length = N ∧
      ∀ i, i < N → ∀ e, camera i = .error e →
        ∃ t, logs.get? i = some t ∧ t.sent = none ∧ t.failed = true := by
  refine ⟨tickList camera mapper lamp 0 N, ?_, tickList_length camera mapper lamp N 0, ?_⟩
  · unfold runService
    refine runLoop_eq_tickList stop camera mapper lamp N 0 fuel ?_ ?_ hfuel
    · intro j hj
      rw [Nat.zero_add]
      exact hfalse j hj
    · rw [Nat.zero_add]
      exact htrue
  · intro i hi e hcam
    refine ⟨serviceTick camera mapper lamp i, ?_, ?_, ?_⟩
    · have := tickList_get? camera mapper lamp N 0 i hi
      rwa [Nat.zero_add] at this
    · unfold serviceTick
      rw [hcam]
    · unfold serviceTick
      rw [hcam]

/-- C6 witness: the spec scenario — stop after 3 ticks, camera raises on
tick 2 (index 1): all 3 ticks run and the failing tick sends no command. -/
theorem spec_c6_error_isolation_witness :
    ∃ logs, runService (fun k => decide (3 ≤ k))
      (fun k => if k = 1 then .error () else .ok ⟨some 50, none, none, none⟩)
      (fun _ => .ok ⟨⟨1, 2, 3⟩, 4, 5⟩)
      (fun _ _ => .ok ()) 6 = some logs ∧ logs.length = 3 ∧
      ∀ i, i < 3 → ∀ e : Unit, (fun k => if k = 1 then Except.error e
          else Except.ok (⟨some 50, none, none, none⟩ : LightMeasurement)) i = .error e →
        ∃ t, logs.get? i = some t ∧ t.sent = none ∧ t.failed = true :=
  spec_c6_error_isolation _ _ _ _ 3 6 (by decide) (by decide) (by decide)

/-- C8: at `lux = 50` with `normalized` absent, the loop's derived raw
normalized value is `50/255` — the divisor is the hardcoded constant 255,
not the configured bright point (for `bright_lux = 100` the spec mandates
`50/100`). -/
theorem spec_c8_hardcoded_divisor :
    rawNormalized ⟨some 50, none, none, none⟩ = 50/255 ∧ (50/255 : ℚ) ≠ 50/100 := by
  constructor
  · show (if (some (50:ℚ)).getD 0 ≠ 0 then (some (50:ℚ)).getD 0 / 255 else 0) = 50/255
    norm_num
  · norm_num

/-- The double-quote character. -/
def dquoteChar : Char := Char.ofNat 34

/-- The single-quote character. -/
def squoteChar : Char := Char.ofNat 39

/-- Python `str.strip()` whitespace: space, tab, newline, carriage return,
vertical tab, form feed. -/
def isPySpace (c : Char) : Bool :=
  c == ' ' || c == Char.ofNat 9 || c == Char.ofNat 10 ||
  c == Char.ofNat 13 || c == Char.ofNat 11 || c == Char.ofNat 12

/-- Python `str.strip()`: drop leading and trailing whitespace. -/
def pyStrip (s : List Char) : List Char :=
  ((s.dropWhile isPySpace).reverse.dropWhile isPySpace).reverse

/-- settings_loader.py `_strip_inline_comment`, scanning state machine:
single-quote and double-quote flags toggle, and an unquoted `#` cuts the
line (`line[:index]`). -/
def stripCommentAux : Bool → Bool → List Char → List Char
  | _, _, [] => []
  | sq, dq, c :: rest =>
    if c = squoteChar ∧ dq = false then c :: stripCommentAux (!sq) dq rest
    else if c = dquoteChar ∧ sq = false then c :: stripCommentAux sq (!dq) rest
    else if c = '#' ∧ sq = false ∧ dq = false then []
    else c :: stripCommentAux sq dq rest

/-- settings_loader.py `_strip_inline_comment`. -/
def stripInlineComment (line : List Char) : List Char :=
  stripCommentAux false false line

/-- The scalar results of settings_loader.py `_parse_value`. -/
inductive PyValue where
  | str : List Char → PyValue
  | bool : Bool → PyValue
  | int : ℤ → PyValue
  | float : ℚ → PyValue
deriving DecidableEq

/-- ASCII decimal digit. -/
def isAsciiDigit (c : Char) : Bool :=
  c == '0' || c == '1' || c == '2' || c == '3' || c == '4' ||
  c == '5' || c == '6' || c == '7' || c == '8' || c == '9'

/-- Digit run with single underscores allowed between digits, as accepted
by Python `int()`/`float()`; returns the accumulated value and the digit
count. -/
def digitsCore (acc cnt : ℕ) : List Char → Option (ℕ × ℕ)
  | [] => some (acc, cnt)
  | c :: rest =>
    if isAsciiDigit c then digitsCore (acc * 10 + (c.toNat - 48)) (cnt + 1) rest
    else if c = '_' then
      match rest with
      | c2 :: rest2 =>
        if isAsciiDigit c2 then digitsCore (acc * 10 + (c2.toNat - 48)) (cnt + 1) rest2
        else none
      | [] => none
    else none

/-- A non-empty digit group (must start with a digit). -/
def parseGroup : List Char → Option (ℕ × ℕ)
  | [] => none
  | c :: rest => if isAsciiDigit c then digitsCore (c.toNat - 48) 1 rest else none

/-- The decimal value of a digit list. -/
def digitsToNat (l : List Char) : ℕ :=
  l.foldl (fun a c => a * 10 + (c.toNat - 48)) 0

/-- Python `int()` on an already-stripped string: optional sign, then an
underscore-separated ASCII digit run. -/
def pyInt (s : List Char) : Option ℤ :=
  match s with
  | [] => none
  | c :: rest =>
    if c = '+' then (parseGroup rest).map (fun p => (p.1 : ℤ))
    else if c = '-' then (parseGroup rest).map (fun p => -(p.1 : ℤ))
    else (parseGroup (c :: rest)).map (fun p => (p.1 : ℤ))

/-- Split at the first character satisfying `p`: the prefix before it and,
when found, the rest after it. -/
def breakAt (p : Char → Bool) : List Char → List Char × Option (List Char)
  | [] => ([], none)
  | c :: rest =>
    if p c then ([], some rest)
    else
      let r := breakAt p rest
      (c :: r.1, r.2)

/-- Mantissa of a Python float literal, after splitting at the first `.`:
`digits`, `digits.`, `.digits` or `digits.digits` (an absent fractional
part contributes nothing; an empty integer part requires a fraction). -/
def parseMantissaSplit (ip : List Char) : Option (List Char) → Option ℚ
  | none => (parseGroup ip).map (fun p => (p.1 : ℚ))
  | some fp =>
    if fp = [] then (parseGroup ip).map (fun p => (p.1 : ℚ))
    else if ip = [] then (parseGroup fp).map (fun p => (p.1 : ℚ) / (10 : ℚ) ^ p.2)
    else
      match parseGroup ip, parseGroup fp with
      | some pi2, some pf => some ((pi2.1 : ℚ) + (pf.1 : ℚ) / (10 : ℚ) ^ pf.2)
      | _, _ => none

/-- Mantissa of a Python float literal: split at the first `.`. -/
def parseMantissa (s : List Char) : Option ℚ :=
  parseMantissaSplit (breakAt (fun c => c == '.') s).1 (breakAt (fun c => c == '.') s).2

/-- Exponent of a Python float literal: optional sign and a digit run. -/
def parseExp (s : List Char) : Option ℤ :=
  match s with
  | [] => none
  | c :: rest =>
    if c = '+' then (parseGroup rest).map (fun p => (p.1 : ℤ))
    else if c = '-' then (parseGroup rest).map (fun p => -(p.1 : ℤ))
    else (parseGroup (c :: rest)).map (fun p => (p.1 : ℤ))

/-- Unsigned Python float literal after splitting at the exponent marker:
a mantissa, optionally scaled by a signed power of ten. -/
def pyFloatSplit (mant : List Char) : Option (List Char) → Option ℚ
  | none => parseMantissa mant
  | some es =>
    match parseMantissa mant, parseExp es with
    | some mq, some ez => some (mq * (10 : ℚ) ^ ez)
    | _, _ => none

/-- Unsigned Python float literal: mantissa with optional `e`/`E` exponent. -/
def pyFloatCore (s : List Char) : Option ℚ :=
  pyFloatSplit (breakAt (fun c => c == 'e' || c == 'E') s).1
    (breakAt (fun c => c == 'e' || c == 'E') s).2

/-- Python `float()` on an already-stripped finite decimal literal
(`inf`/`nan` spellings contain no `.` and are unreachable from
`_parse_value`'s float branch, so they are not modelled). -/
def pyFloat (s : List Char) : Option ℚ :=
  match s with
  | [] => none
  | c :: rest =>
    if c = '+' then pyFloatCore rest
    else if c = '-' then (pyFloatCore rest).map (fun q => -q)
    else pyFloatCore (c :: rest)

/-- settings_loader.py `_parse_value` after the initial `strip()`: quoted
values keep their literal text, unquoted true/false become booleans, a
numeric literal with a `.` parses as float else as int, anything else is
the string itself. -/
def parseValueStripped (value : List Char) : PyValue :=
  match value with
  | [] => PyValue.str []
  | c :: rest =>
    if (c = dquoteChar ∨ c = squoteChar) ∧ (c :: rest).getLast? = some c then
      PyValue.str rest.dropLast
    else if (c :: rest).map Char.toLower = ("true".data) then PyValue.bool true
    else if (c :: rest).map Char.toLower = ("false".data) then PyValue.bool false
    else if ('.') ∈ (c :: rest) then
      match pyFloat (c :: rest) with
      | some q => PyValue.float q
      | none => PyValue.str (c :: rest)
    else
      match pyInt (c :: rest) with
      | some n => PyValue.int n
      | none => PyValue.str (c :: rest)

/-- settings_loader.py `_parse_value`. -/
def parseValue (raw : List Char) : PyValue :=
  parseValueStripped (pyStrip raw)

theorem dropWhile_eq_self_of_head (p : Char → Bool) (l : List Char)
    (h : ∀ c, l.head? = some c → p c = false) : l.dropWhile p = l := by
  cases l with
  | nil => rfl
  | cons c rest => simp [List.dropWhile, h c rfl]

theorem pyStrip_eq_self {l : List Char}
    (hh : ∀ c, l.head? = some c → isPySpace c = false)
    (hl : ∀ c, l.getLast? = some c → isPySpace c = false) : pyStrip l = l := by
  unfold pyStrip
  rw [dropWhile_eq_self_of_head _ _ hh]
  rw [dropWhile_eq_self_of_head _ _ (fun c hc => hl c (by rwa [List.head?_reverse] at hc))]
  exact List.reverse_reverse l

theorem dropLast_append_singleton (l : List Char) (a : Char) : (l ++ [a]).dropLast = l := by
  induction l with
  | nil => rfl
  | cons c rest ih =>
    cases hrest : rest ++ [a] with
    | nil => exact absurd (List.append_eq_nil.mp hrest).2 (by simp)
    | cons x xs =>
      show (c :: (rest ++ [a])).dropLast = c :: rest
      rw [hrest]
      show c :: (x :: xs).dropLast = c :: rest
      rw [← hrest, ih]

theorem getLast?_append_singleton (l : List Char) (a : Char) : (l ++ [a]).getLast? = some a := by
  induction l with
  | nil => rfl
  | cons c rest ih =>
    cases hrest : rest ++ [a] with
    | nil => exact absurd (List.append_eq_nil.mp hrest).2 (by simp)
    | cons x xs =>
      show (c :: (rest ++ [a])).getLast? = some a
      rw [hrest, List.getLast?_cons_cons, ← hrest, ih]

theorem getLast?_append_right (l1 l2 : List Char) (h : l2 ≠ []) :
    (l1 ++ l2).getLast? = l2.getLast? := by
  induction l1 with
  | nil => rfl
  | cons c rest ih =>
    cases hrest : rest ++ l2 with
    | nil => exact absurd (List.append_eq_nil.mp hrest).2 h
    | cons x xs =>
      show (c :: (rest ++ l2)).getLast? = l2.getLast?
      rw [hrest, List.getLast?_cons_cons, ← hrest, ih]

theorem isAsciiDigit_cases {c : Char} (h : isAsciiDigit c = true) :
    c = '0' ∨ c = '1' ∨ c = '2' ∨ c = '3' ∨ c = '4' ∨
    c = '5' ∨ c = '6' ∨ c = '7' ∨ c = '8' ∨ c = '9' := by
  have h2 := h
  simp [isAsciiDigit] at h2
  tauto

theorem isPySpace_of_digit {c : Char} (h : isAsciiDigit c = true) : isPySpace c = false := by
  rcases isAsciiDigit_cases h with rfl|rfl|rfl|rfl|rfl|rfl|rfl|rfl|rfl|rfl <;> decide

theorem digit_not_quote {c : Char} (h : isAsciiDigit c = true) :
    ¬(c = dquoteChar ∨ c = squoteChar) := by
  rcases isAsciiDigit_cases h with rfl|rfl|rfl|rfl|rfl|rfl|rfl|rfl|rfl|rfl <;> decide

theorem digit_toLower {c : Char} (h : isAsciiDigit c = true) : c.toLower = c := by
  rcases isAsciiDigit_cases h with rfl|rfl|rfl|rfl|rfl|rfl|rfl|rfl|rfl|rfl <;> decide

theorem digit_not_eE {c : Char} (h : isAsciiDigit c = true) :
    (c == 'e' || c == 'E') = false := by
  rcases isAsciiDigit_cases h with rfl|rfl|rfl|rfl|rfl|rfl|rfl|rfl|rfl|rfl <;> decide

theorem digit_not_dot {c : Char} (h : isAsciiDigit c = true) : (c == '.') = false := by
  rcases isAsciiDigit_cases h with rfl|rfl|rfl|rfl|rfl|rfl|rfl|rfl|rfl|rfl <;> decide

theorem digit_not_sign {c : Char} (h : isAsciiDigit c = true) : ¬ c = '+' ∧ ¬ c = '-' := by
  rcases isAsciiDigit_cases h with rfl|rfl|rfl|rfl|rfl|rfl|rfl|rfl|rfl|rfl <;> decide

theorem digitsCore_cons (acc cnt : ℕ) (c : Char) (rest : List Char) :
    digitsCore acc cnt (c :: rest) =
      if isAsciiDigit c then digitsCore (acc * 10 + (c.toNat - 48)) (cnt + 1) rest
      else if c = '_' then
        match rest with
        | c2 :: rest2 =>
          if isAsciiDigit c2 then digitsCore (acc * 10 + (c2.toNat - 48)) (cnt + 1) rest2
          else none
        | [] => none
      else none := by
  rw [digitsCore.eq_def]

theorem digitsCore_all_digits :
    ∀ (l : List Char) (acc cnt : ℕ), (∀ c ∈ l, isAsciiDigit c = true) →
      digitsCore acc cnt l =
        some (l.foldl (fun a c => a * 10 + (c.toNat - 48)) acc, cnt + l.length) := by
  intro l
  induction l with
  | nil => intro acc cnt _; rfl
  | cons c rest ih =>
    intro acc cnt h
    have hc := h c (List.mem_cons_self c rest)
    rw [digitsCore_cons, if_pos hc, ih _ _ (fun x hx => h x (List.mem_cons_of_mem c hx))]
    have harith : cnt + 1 + rest.length = cnt + (rest.length + 1) := by omega
    simp [List.foldl_cons, harith]

theorem parseGroup_all_digits {l : List Char} (hne : l ≠ [])
    (h : ∀ c ∈ l, isAsciiDigit c = true) :
    parseGroup l = some (digitsToNat l, l.length) := by
  cases l with
  | nil => exact absurd rfl hne
  | cons c rest =>
    have hc := h c (List.mem_cons_self c rest)
    simp only [parseGroup]
    rw [if_pos hc, digitsCore_all_digits _ _ _ (fun x hx => h x (List.mem_cons_of_mem c hx))]
    unfold digitsToNat
    rw [List.foldl_cons, List.length_cons]
    have h0 : (0 : ℕ) * 10 + (c.toNat - 48) = c.toNat - 48 := by omega
    rw [h0]
    have h1 : 1 + rest.length = rest.length + 1 := by omega
    rw [h1]

theorem breakAt_no_hit (p : Char → Bool) :
    ∀ l : List Char, (∀ c ∈ l, p c = false) → breakAt p l = (l, none) := by
  intro l
  induction l with
  | nil => intro _; rfl
  | cons c rest ih =>
    intro h
    simp only [breakAt]
    rw [if_neg (by simp [h c (List.mem_cons_self c rest)]),
      ih (fun x hx => h x (List.mem_cons_of_mem c hx))]

theorem breakAt_hit (p : Char → Bool) (c : Char) (hc : p c = true) :
    ∀ (pre post : List Char), (∀ x ∈ pre, p x = false) →
      breakAt p (pre ++ c :: post) = (pre, some post) := by
  intro pre
  induction pre with
  | nil =>
    intro post _
    show breakAt p (c :: post) = ([], some post)
    simp only [breakAt]
    rw [if_pos hc]
  | cons x rest ih =>
    intro post h
    show breakAt p (x :: (rest ++ c :: post)) = (x :: rest, some post)
    simp only [breakAt]
    rw [if_neg (by simp [h x (List.mem_cons_self x rest)]),
      ih post (fun y hy => h y (List.mem_cons_of_mem x hy))]

theorem stripCommentAux_cons (sq dq : Bool) (c : Char) (rest : List Char) :
    stripCommentAux sq dq (c :: rest) =
      if c = squoteChar ∧ dq = false then c :: stripCommentAux (!sq) dq rest
      else if c = dquoteChar ∧ sq = false then c :: stripCommentAux sq (!dq) rest
      else if c = '#' ∧ sq = false ∧ dq = false then []
      else c :: stripCommentAux sq dq rest := by
  rw [stripCommentAux.eq_def]

theorem stripCommentAux_no_special :
    ∀ (l : List Char) (sq dq : Bool),
      (∀ c ∈ l, c ≠ '#' ∧ c ≠ dquoteChar ∧ c ≠ squoteChar) →
      stripCommentAux sq dq l = l := by
  intro l
  induction l with
  | nil => intro sq dq _; rfl
  | cons c rest ih =>
    intro sq dq h
    obtain ⟨h1, h2, h3⟩ := h c (List.mem_cons_self c rest)
    rw [stripCommentAux_cons, if_neg (fun hh => h3 hh.1), if_neg (fun hh => h2 hh.1),
      if_neg (fun hh => h1 hh.1), ih sq dq (fun x hx => h x (List.mem_cons_of_mem c hx))]

theorem stripCommentAux_cut :
    ∀ (pre post : List Char),
      (∀ c ∈ pre, c ≠ '#' ∧ c ≠ dquoteChar ∧ c ≠ squoteChar) →
      stripCommentAux false false (pre ++ '#' :: post) = pre := by
  intro pre
  induction pre with
  | nil =>
    intro post _
    show stripCommentAux false false ('#' :: post) = []
    rw [stripCommentAux_cons, if_neg (fun hh => absurd hh.1 (by decide)),
      if_neg (fun hh => absurd hh.1 (by decide)), if_pos ⟨rfl, rfl, rfl⟩]
  | cons c pre ih =>
    intro post h
    obtain ⟨h1, h2, h3⟩ := h c (List.mem_cons_self c pre)
    show stripCommentAux false false (c :: (pre ++ '#' :: post)) = c :: pre
    rw [stripCommentAux_cons, if_neg (fun hh => h3 hh.1), if_neg (fun hh => h2 hh.1),
      if_neg (fun hh => h1 hh.1), ih post (fun x hx => h x (List.mem_cons_of_mem c hx))]

theorem stripCommentAux_inDouble :
    ∀ (a post : List Char), (∀ c ∈ a, c ≠ dquoteChar) →
      stripCommentAux false true (a ++ dquoteChar :: post) =
        a ++ dquoteChar :: stripCommentAux false false post := by
  intro a
  induction a with
  | nil =>
    intro post _
    show stripCommentAux false true (dquoteChar :: post) =
      dquoteChar :: stripCommentAux false false post
    rw [stripCommentAux_cons, if_neg (fun hh => absurd hh.2 (by decide)),
      if_pos ⟨rfl, rfl⟩]
    rfl
  | cons c a ih =>
    intro post h
    have hc := h c (List.mem_cons_self c a)
    show stripCommentAux false true (c :: (a ++ dquoteChar :: post)) =
      c :: (a ++ dquoteChar :: stripCommentAux false false post)
    rw [stripCommentAux_cons, if_neg (fun hh => absurd hh.2 (by decide)),
      if_neg (fun hh => hc hh.1), if_neg (fun hh => absurd hh.2.2 (by decide)),
      ih post (fun x hx => h x (List.mem_cons_of_mem c hx))]

theorem parseValueStripped_cons (c : Char) (rest : List Char) :
    parseValueStripped (c :: rest) =
      if (c = dquoteChar ∨ c = squoteChar) ∧ (c :: rest).getLast? = some c then
        PyValue.str rest.dropLast
      else if (c :: rest).map Char.toLower = ("true".data) then PyValue.bool true
      else if (c :: rest).map Char.toLower = ("false".data) then PyValue.bool false
      else if ('.') ∈ (c :: rest) then
        match pyFloat (c :: rest) with
        | some q => PyValue.float q
        | none => PyValue.str (c :: rest)
      else
        match pyInt (c :: rest) with
        | some n => PyValue.int n
        | none => PyValue.str (c :: rest) := by
  rw [parseValueStripped.eq_def]

theorem pyInt_cons (c : Char) (rest : List Char) :
    pyInt (c :: rest) =
      if c = '+' then (parseGroup rest).map (fun p => (p.1 : ℤ))
      else if c = '-' then (parseGroup rest).map (fun p => -(p.1 : ℤ))
      else (parseGroup (c :: rest)).map (fun p => (p.1 : ℤ)) := by
  rw [pyInt.eq_def]

theorem pyFloat_cons (c : Char) (rest : List Char) :
    pyFloat (c :: rest) =
      if c = '+' then pyFloatCore rest
      else if c = '-' then (pyFloatCore rest).map (fun q => -q)
      else pyFloatCore (c :: rest) := by
  rw [pyFloat.eq_def]

theorem parseMantissaSplit_some (ip fp : List Char) :
    parseMantissaSplit ip (some fp) =
      if fp = [] then (parseGroup ip).map (fun p => (p.1 : ℚ))
      else if ip = [] then (parseGroup fp).map (fun p => (p.1 : ℚ) / (10 : ℚ) ^ p.2)
      else
        match parseGroup ip, parseGroup fp with
        | some pi2, some pf => some ((pi2.1 : ℚ) + (pf.1 : ℚ) / (10 : ℚ) ^ pf.2)
        | _, _ => none := by
  rw [parseMantissaSplit.eq_def]

theorem pyInt_digits {a : List Char} (ha : a ≠ [])
    (hda : ∀ c ∈ a, isAsciiDigit c = true) :
    pyInt a = some ((digitsToNat a : ℤ)) := by
  cases a with
  | nil => exact absurd rfl ha
  | cons c t =>
    have hsign := digit_not_sign (hda c (List.mem_cons_self c t))
    rw [pyInt_cons, if_neg hsign.1, if_neg hsign.2,
      parseGroup_all_digits (by simp) hda]
    rfl

theorem pyFloat_digits {a b : List Char} (ha : a ≠ []) (hb : b ≠ [])
    (hda : ∀ c ∈ a, isAsciiDigit c = true) (hdb : ∀ c ∈ b, isAsciiDigit c = true) :
    pyFloat (a ++ '.' :: b) =
      some ((digitsToNat a : ℚ) + (digitsToNat b : ℚ) / (10 : ℚ) ^ b.length) := by
  cases a with
  | nil => exact absurd rfl ha
  | cons ca ta =>
    have hca := hda ca (List.mem_cons_self ca ta)
    have hsign := digit_not_sign hca
    show pyFloat (ca :: (ta ++ '.' :: b)) = _
    rw [pyFloat_cons, if_neg hsign.1, if_neg hsign.2]
    show pyFloatCore ((ca :: ta) ++ '.' :: b) = _
    unfold pyFloatCore
    have hbreakE : breakAt (fun c => c == 'e' || c == 'E') ((ca :: ta) ++ '.' :: b) =
        ((ca :: ta) ++ '.' :: b, none) := by
      refine breakAt_no_hit _ _ ?_
      intro x hx
      rcases List.mem_append.mp hx with hxa | hxb
      · exact digit_not_eE (hda x hxa)
      · rcases List.mem_cons.mp hxb with rfl | hxb2
        · decide
        · exact digit_not_eE (hdb x hxb2)
    rw [hbreakE]
    show pyFloatSplit ((ca :: ta) ++ '.' :: b) none = _
    show parseMantissa ((ca :: ta) ++ '.' :: b) = _
    unfold parseMantissa
    have hbreakD : breakAt (fun c => c == '.') ((ca :: ta) ++ '.' :: b) =
        (ca :: ta, some b) :=
      breakAt_hit _ '.' (by decide) (ca :: ta) b (fun x hx => digit_not_dot (hda x hx))
    rw [hbreakD]
    show parseMantissaSplit (ca :: ta) (some b) = _
    rw [parseMantissaSplit_some, if_neg hb, if_neg (by simp),
      parseGroup_all_digits (by simp) hda, parseGroup_all_digits hb hdb]

theorem head?_mem {l : List Char} {c : Char} (h : l.head? = some c) : c ∈ l := by
  cases l with
  | nil => cases h
  | cons x xs =>
    rw [List.head?_cons] at h
    injection h with h2
    rw [← h2]
    exact List.mem_cons_self x xs

theorem getLast?_mem : ∀ {l : List Char} {c : Char}, l.getLast? = some c → c ∈ l := by
  intro l
  induction l with
  | nil => intro c h; cases h
  | cons x xs ih =>
    intro c h
    cases xs with
    | nil =>
      injection h with h2
      rw [← h2]
      exact List.mem_cons_self x []
    | cons y ys =>
      rw [List.getLast?_cons_cons] at h
      exact List.mem_cons_of_mem x (ih h)

theorem pyStrip_of_forall {l : List Char} (h : ∀ c ∈ l, isPySpace c = false) :
    pyStrip l = l :=
  pyStrip_eq_self (fun c hc => h c (head?_mem hc)) (fun c hc => h c (getLast?_mem hc))

theorem map_toLower_eq_self {l : List Char} (h : ∀ c ∈ l, c.toLower = c) :
    l.map Char.toLower = l := by
  induction l with
  | nil => rfl
  | cons c rest ih =>
    rw [List.map_cons, h c (List.mem_cons_self c rest),
      ih (fun x hx => h x (List.mem_cons_of_mem c hx))]

/-- C9: behavior of the settings reader's value parser and comment
stripper — quoted values keep their literal text with the quotes removed;
unquoted `true`/`false` become booleans; a digit literal with a decimal
point parses as a floating-point value and one without as an integer;
values past those guards come back as strings; an unquoted `#` discards
the rest of the line while a `#` inside double quotes does not. -/
theorem spec_c9_parse_value :
    (∀ (s : List Char) (q : Char), q = dquoteChar ∨ q = squoteChar →
      parseValue (q :: (s ++ [q])) = PyValue.str s) ∧
    (parseValue ("true".data) = PyValue.bool true ∧
      parseValue ("false".data) = PyValue.bool false) ∧
    (∀ a b : List Char, a ≠ [] → b ≠ [] →
      (∀ c ∈ a, isAsciiDigit c = true) → (∀ c ∈ b, isAsciiDigit c = true) →
      parseValue (a ++ '.' :: b) =
        PyValue.float ((digitsToNat a : ℚ) + (digitsToNat b : ℚ) / (10 : ℚ) ^ b.length)) ∧
    (∀ a : List Char, a ≠ [] → (∀ c ∈ a, isAsciiDigit c = true) →
      parseValue a = PyValue.int (digitsToNat a)) ∧
    (∀ v : List Char, pyStrip v = v →
      v.head? ≠ some dquoteChar → v.head? ≠ some squoteChar →
      v.map Char.toLower ≠ ("true".data) → v.map Char.toLower ≠ ("false".data) →
      (('.') ∈ v → pyFloat v = none) → (('.') ∉ v → pyInt v = none) →
      parseValue v = PyValue.str v) ∧
    (∀ pre post : List Char, (∀ c ∈ pre, c ≠ '#' ∧ c ≠ dquoteChar ∧ c ≠ squoteChar) →
      stripInlineComment (pre ++ '#' :: post) = pre) ∧
    (∀ a post : List Char, (∀ c ∈ a, c ≠ dquoteChar) →
      (∀ c ∈ post, c ≠ '#' ∧ c ≠ dquoteChar ∧ c ≠ squoteChar) →
      stripInlineComment (dquoteChar :: (a ++ dquoteChar :: post)) =
        dquoteChar :: (a ++ dquoteChar :: post)) := by
  refine ⟨?_, ⟨by decide, by decide⟩, ?_, ?_, ?_, ?_, ?_⟩
  · -- quoted values
    intro s q hq
    have hqs : isPySpace q = false := by rcases hq with rfl | rfl <;> decide
    have hlast : (q :: (s ++ [q])).getLast? = some q := by
      rw [show q :: (s ++ [q]) = (q :: s) ++ [q] from (List.cons_append q s [q]).symm,
        getLast?_append_singleton]
    have hstrip : pyStrip (q :: (s ++ [q])) = q :: (s ++ [q]) := by
      refine pyStrip_eq_self ?_ ?_
      · intro c hc
        rw [List.head?_cons] at hc
        injection hc with hc2
        rw [← hc2]
        exact hqs
      · intro c hc
        rw [hlast] at hc
        injection hc with hc2
        rw [← hc2]
        exact hqs
    unfold parseValue
    rw [hstrip, parseValueStripped_cons, if_pos ⟨hq, hlast⟩, dropLast_append_singleton]
  · -- decimal-point literals
    intro a b ha hb hda hdb
    have hall : ∀ c ∈ a ++ '.' :: b, isPySpace c = false := by
      intro c hc
      rcases List.mem_append.mp hc with h1 | h2
      · exact isPySpace_of_digit (hda c h1)
      · rcases List.mem_cons.mp h2 with rfl | h3
        · decide
        · exact isPySpace_of_digit (hdb c h3)
    have hstrip := pyStrip_of_forall hall
    unfold parseValue
    rw [hstrip]
    cases a with
    | nil => exact absurd rfl ha
    | cons ca ta =>
      have hca := hda ca (List.mem_cons_self ca ta)
      show parseValueStripped (ca :: (ta ++ '.' :: b)) = _
      have hmaplow : (ca :: (ta ++ '.' :: b)).map Char.toLower = ca :: (ta ++ '.' :: b) := by
        refine map_toLower_eq_self ?_
        intro c hc
        rcases List.mem_cons.mp hc with rfl | hc2
        · exact digit_toLower hca
        · rcases List.mem_append.mp hc2 with h1 | h2
          · exact digit_toLower (hda c (List.mem_cons_of_mem ca h1))
          · rcases List.mem_cons.mp h2 with rfl | h3
            · decide
            · exact digit_toLower (hdb c h3)
      have hdotmem : ('.') ∈ ca :: (ta ++ '.' :: b) :=
        List.mem_cons_of_mem ca (List.mem_append_right ta (List.mem_cons_self _ _))
      have hnetrue : (ca :: (ta ++ '.' :: b)).map Char.toLower ≠ ("true".data) := by
        rw [hmaplow]
        intro heq
        have hdot2 : ('.') ∈ ("true".data) := heq ▸ hdotmem
        exact absurd hdot2 (by decide)
      have hnefalse : (ca :: (ta ++ '.' :: b)).map Char.toLower ≠ ("false".data) := by
        rw [hmaplow]
        intro heq
        have hdot2 : ('.') ∈ ("false".data) := heq ▸ hdotmem
        exact absurd hdot2 (by decide)
      rw [parseValueStripped_cons, if_neg (fun hh => digit_not_quote hca hh.1),
        if_neg hnetrue, if_neg hnefalse, if_pos hdotmem]
      have hpf := pyFloat_digits (a := ca :: ta) (b := b) (by simp) hb hda hdb
      rw [List.cons_append] at hpf
      rw [hpf]
  · -- plain digit literals
    intro a ha hda
    have hstrip := pyStrip_of_forall (fun c hc => isPySpace_of_digit (hda c hc))
    unfold parseValue
    rw [hstrip]
    cases a with
    | nil => exact absurd rfl ha
    | cons c t =>
      have hc := hda c (List.mem_cons_self c t)
      have hmaplow : (c :: t).map Char.toLower = c :: t :=
        map_toLower_eq_self (fun x hx => digit_toLower (hda x hx))
      have hnetrue : (c :: t).map Char.toLower ≠ ("true".data) := by
        rw [hmaplow]
        intro heq
        rw [heq] at hda
        exact absurd (hda 't' (by decide)) (by decide)
      have hnefalse : (c :: t).map Char.toLower ≠ ("false".data) := by
        rw [hmaplow]
        intro heq
        rw [heq] at hda
        exact absurd (hda 'f' (by decide)) (by decide)
      have hnodot : ('.') ∉ c :: t := fun hdot => absurd (hda '.' hdot) (by decide)
      rw [parseValueStripped_cons, if_neg (fun hh => digit_not_quote hc hh.1),
        if_neg hnetrue, if_neg hnefalse, if_neg hnodot,
        pyInt_digits (by simp) hda]
  · -- everything else still a string
    intro v hstrip hqd hqs ht hf hfl hint
    unfold parseValue
    rw [hstrip]
    cases v with
    | nil => rfl
    | cons c rest =>
      have hnq : ¬((c = dquoteChar ∨ c = squoteChar) ∧ (c :: rest).getLast? = some c) := by
        intro hh
        rcases hh.1 with rfl | rfl
        · exact hqd (List.head?_cons)
        · exact hqs (List.head?_cons)
      rw [parseValueStripped_cons, if_neg hnq, if_neg ht, if_neg hf]
      by_cases hdot : ('.') ∈ c :: rest
      · rw [if_pos hdot, hfl hdot]
      · rw [if_neg hdot, hint hdot]
  · -- unquoted comment cut
    intro pre post h
    exact stripCommentAux_cut pre post h
  · -- hash inside double quotes survives
    intro a post hA hPost
    unfold stripInlineComment
    rw [stripCommentAux_cons, if_neg (fun hh => absurd hh.1 (by decide)),
      if_pos ⟨rfl, rfl⟩, show (!false) = true from rfl,
      stripCommentAux_inDouble a post hA,
      stripCommentAux_no_special post false false hPost]

/-- C9 witness: representative inputs for each clause — a quoted value
with a space, the booleans, `12.5`, `42`, a plain word, a commented line,
and a line whose `#` sits inside double quotes. -/
theorem spec_c9_parse_value_witness :
    parseValue (dquoteChar :: (("ab c".data) ++ [dquoteChar])) = PyValue.str ("ab c".data) ∧
    parseValue ("true".data) = PyValue.bool true ∧
    parseValue (("12".data) ++ '.' :: ("5".data)) =
      PyValue.float ((digitsToNat ("12".data) : ℚ) +
        (digitsToNat ("5".data) : ℚ) / (10 : ℚ) ^ ("5".data).length) ∧
    parseValue ("42".data) = PyValue.int (digitsToNat ("42".data)) ∧
    parseValue ("hello".data) = PyValue.str ("hello".data) ∧
    stripInlineComment (("key = 1 ".data) ++ '#' :: (" comment".data)) = ("key = 1 ".data) ∧
    stripInlineComment (dquoteChar :: (("a#b".data) ++ dquoteChar :: (" rest".data))) =
      dquoteChar :: (("a#b".data) ++ dquoteChar :: (" rest".data)) := by
  obtain ⟨h1, h2, h3, h4, h5, h6, h7⟩ := spec_c9_parse_value
  refine ⟨h1 ("ab c".data) dquoteChar (Or.inl rfl), h2.1, ?_, ?_, ?_, ?_, ?_⟩
  · exact h3 ("12".data) ("5".data) (by decide) (by decide) (by decide) (by decide)
  · exact h4 ("42".data) (by decide) (by decide)
  · exact h5 ("hello".data) (by decide) (by decide) (by decide) (by decide) (by decide)
      (by decide) (by decide)
  · exact h6 ("key = 1 ".data) (" comment".data) (by decide)
  · exact h7 ("a#b".data) (" rest".data) (by decide) (by decide)
